import Mathlib

/-!
Shallow embedding of the `@inquirer/select` prompt
(`packages/select/src/index.mts`): a single-select terminal list prompt.
The data model, the keypress state machine and the frame renderer are
translated from the TypeScript source; behaviour supplied by the
`@inquirer/core` host framework (key classification, prompt teardown after
`done`, pagination, the prefix glyph) is modelled from the specification
where noted.
-/

set_option autoImplicit false

namespace Select

/-- The JavaScript value stored in a `disabled` field:
absent (`undefined`), a boolean, or a reason string
(`disabled?: boolean | string`). -/
inductive DisabledField where
  | absent
  | bool (b : Bool)
  | str (s : String)
  deriving DecidableEq, Repr

/-- JavaScript truthiness of a `disabled` field value: `undefined` and
`false` are falsy, and so is the empty string. -/
def DisabledField.truthy : DisabledField → Bool
  | .absent => false
  | .bool b => b
  | .str s => !(s == "")

/-- `type Choice = { value: string; name?: string; description?: string;
disabled?: boolean | string }`. -/
structure Choice where
  value : String
  name : Option String
  description : Option String
  disabled : DisabledField
  deriving DecidableEq, Repr

/-- An element of the `choices` array: a `Choice` or a `Separator`
(which carries its display string `separator`). -/
inductive Entry where
  | choice (c : Choice)
  | separator (sep : String)
  deriving DecidableEq, Repr

/-- `isSelectableChoice(choice)`: the entry is defined, is not a
`Separator`, and its `disabled` field is falsy. -/
def isSelectableChoice : Option Entry → Bool
  | none => false
  | some (.separator _) => false
  | some (.choice c) => !c.disabled.truthy

/-- `SelectConfig`: the caller-supplied configuration. -/
structure SelectConfig where
  message : String
  choices : List Entry
  pageSize : Option Nat
  deriving Repr

/-- The prompt status string: `'pending'` or `'done'`. -/
inductive Status where
  | pending
  | done
  deriving DecidableEq, Repr

/-- `PromptState`: the two `useState` cells `status` and `cursorPosition`. -/
structure PromptState where
  status : Status
  cursorPosition : Nat
  deriving DecidableEq, Repr

/-- The `useState(() => ...)` initializer for `cursorPosition`:
`choices.findIndex(isSelectableChoice)`; a negative result throws
`[select prompt] No selectable choices.`. Construction runs before any
frame is rendered. -/
def initState (choices : List Entry) : Except String PromptState :=
  match choices.findIdx? (fun e => isSelectableChoice (some e)) with
  | none => .error "[select prompt] No selectable choices. All choices are disabled."
  | some i => .ok ⟨.pending, i⟩

/-- A keypress event as classified by `@inquirer/core`'s `isEnterKey`,
`isUpKey`, `isDownKey`, `isNumberKey`; a number key carries the digit
`Number(key.name)`. -/
inductive KeyEvent where
  | enter
  | up
  | down
  | number (n : Nat)
  deriving DecidableEq, Repr

/-- JavaScript array indexing `choices[i]` for a possibly negative
index `i`: out-of-range access yields `undefined`. -/
def jsIndex (choices : List Entry) (i : Int) : Option Entry :=
  if i < 0 then none else choices[i.toNat]?

/-- One iteration of the wrap-around cursor update:
`(newCursorPosition + offset + choices.length) % choices.length`. -/
def wrapStep (len : Nat) (offset : Int) (pos : Nat) : Nat :=
  (((pos : Int) + offset + (len : Int)) % (len : Int)).toNat

/-- The `while (!isSelectableChoice(selectedOption))` search of the
arrow-key branch, with explicit fuel: starting from `pos`, repeatedly
apply `wrapStep` until the candidate entry is selectable. The source
loop has no fuel; `none` models non-termination (fuel exhausted). The
loop body always runs at least once because `selectedOption` starts out
`undefined`. -/
def stepSearch (choices : List Entry) (offset : Int) : Nat → Nat → Option Nat
  | 0, _ => none
  | fuel + 1, pos =>
    let newPos := wrapStep choices.length offset pos
    if isSelectableChoice choices[newPos]? then some newPos
    else stepSearch choices offset fuel newPos

/-- The arrow-key directional search from `pos`, given `choices.length`
fuel (enough to visit every index once). -/
def directionalStep (choices : List Entry) (offset : Int) (pos : Nat) : Option Nat :=
  stepSearch choices offset choices.length pos

/-- `choices[cursorPosition] as Choice`: the entry at the cursor,
when it is indeed a `Choice`. -/
def choiceAt (choices : List Entry) (i : Nat) : Option Choice :=
  match choices[i]? with
  | some (.choice c) => some c
  | _ => none

/-- The `useKeypress` handler, acting on a pending state. The result is
the next state paired with the resolved value when `done(...)` was
called; `none` overall models the divergence of the arrow-key loop when
no entry is selectable. -/
def handleKeypress (choices : List Entry) (s : PromptState) (k : KeyEvent) :
    Option (PromptState × Option String) :=
  match k with
  | .enter =>
    some ({ s with status := .done }, (choiceAt choices s.cursorPosition).map Choice.value)
  | .up =>
    match directionalStep choices (-1) s.cursorPosition with
    | some p => some ({ s with cursorPosition := p }, none)
    | none => none
  | .down =>
    match directionalStep choices 1 s.cursorPosition with
    | some p => some ({ s with cursorPosition := p }, none)
    | none => none
  | .number n =>
    let newPos : Int := (n : Int) - 1
    if isSelectableChoice (jsIndex choices newPos) then
      some ({ s with cursorPosition := newPos.toNat }, none)
    else
      some (s, none)

/-- Modelled from the spec: once the prompt has resolved (`status = Done`),
`@inquirer/core`'s `createPrompt` (not under `src/`) tears the keypress
subscription down, so every later event is a no-op: "Any event |
status = Done | no-op (prompt has already resolved)". On a pending state
this is exactly the `useKeypress` handler of the source. -/
def transition (choices : List Entry) (s : PromptState) (k : KeyEvent) :
    Option (PromptState × Option String) :=
  if s.status = .done then some (s, none)
  else handleKeypress choices s k

/-- The reachable prompt states for a given `choices` list: the state the
`useState` initializer produces, and anything reachable from it through
keypress events. -/
inductive Reachable (choices : List Entry) : PromptState → Prop where
  | init (s : PromptState) : initState choices = .ok s → Reachable choices s
  | step (s : PromptState) (k : KeyEvent) (s' : PromptState) (out : Option String) :
      Reachable choices s → transition choices s k = some (s', out) →
      Reachable choices s'

/-! ### Frame renderer -/

/-- `chalk.bold`: wraps its argument in the bold / reset-intensity SGR codes. -/
def chalkBold (s : String) : String := "\x1b[1m" ++ s ++ "\x1b[22m"

/-- `chalk.dim`: wraps its argument in the dim / reset-intensity SGR codes. -/
def chalkDim (s : String) : String := "\x1b[2m" ++ s ++ "\x1b[22m"

/-- `chalk.cyan`: wraps its argument in the cyan / default-color SGR codes. -/
def chalkCyan (s : String) : String := "\x1b[36m" ++ s ++ "\x1b[39m"

/-- `ansiEscapes.cursorHide`: the cursor-hiding control sequence. -/
def cursorHide : String := "\x1b[?25l"

/-- `figures.pointer`: the cursor glyph. -/
def pointer : String := "❯"

/-- JavaScript `a || b` on strings: `b` when `a` is the (falsy) empty
string, otherwise `a`. -/
def jsOr (a b : String) : String := if a == "" then b else a

/-- `choice.name || choice.value`: the display label of a choice
(an absent or empty `name` falls back to `value`). -/
def displayLabel (c : Choice) : String := jsOr (c.name.getD "") c.value

/-- One line of the list body (the `choices.map` callback): a separator
line, a dimmed disabled line with its reason (or the generic
`(disabled)` marker), the highlighted pointer line at the cursor, or a
plain indented line. -/
def renderEntry (cursorPosition index : Nat) : Entry → String
  | .separator sep => " " ++ sep
  | .choice c =>
    let line := displayLabel c
    if c.disabled.truthy then
      let disabledLabel :=
        match c.disabled with
        | .str s => s
        | _ => "(disabled)"
      chalkDim ("- " ++ line ++ " " ++ disabledLabel)
    else if index == cursorPosition then
      chalkCyan (pointer ++ " " ++ line)
    else
      "  " ++ line

/-- The rendered lines of the list body, one per entry, carrying the
running index of the `choices.map((choice, index) => ...)` callback. -/
def renderLines (cursorPosition : Nat) : Nat → List Entry → List String
  | _, [] => []
  | i, e :: rest => renderEntry cursorPosition i e :: renderLines cursorPosition (i + 1) rest

/-- JavaScript `Array#join(sep)`: concatenate the elements with `sep`
between consecutive elements. -/
def joinSep (sep : String) : List String → String
  | [] => ""
  | [l] => l
  | l :: r :: rs => l ++ sep ++ joinSep sep (r :: rs)

/-- `allChoices`: every entry rendered, joined with newlines. -/
def allChoicesBody (choices : List Entry) (cursorPosition : Nat) : String :=
  joinSep "\n" (renderLines cursorPosition 0 choices)

/-- The `choice.description` suffix line of the pending frame (appended
only when the description is truthy). The cursor entry is a `Choice` in
every reachable pending state; on a non-`Choice` the source would fault,
modelled here as the empty suffix. -/
def descriptionSuffix (choice? : Option Choice) : String :=
  match choice? with
  | some c =>
    match c.description with
    | some d => if d == "" then "" else "\n" ++ d
    | none => ""
  | none => ""

/-- The display label of the confirmed choice in the done frame
(`choice.name || choice.value`); the cursor entry is a `Choice` in every
reachable state, and on a non-`Choice` the source would fault, modelled
here as the empty string. -/
def doneLabel (choice? : Option Choice) : String :=
  match choice? with
  | some c => displayLabel c
  | none => ""

/-- The one-time hint text appended to the header on the first render. -/
def hintText : String := " (Use arrow keys)"

/-- The header `message`: the bold styled message, with the one-time
dimmed hint `(Use arrow keys)` appended exactly when `firstRender` is
still set. -/
def headerMessage (message : String) (firstRender : Bool) : String :=
  chalkBold message ++ (if firstRender then chalkDim hintText else "")

/-- The frame renderer. `paginate` stands for the external
`Paginator#paginate` windowing collaborator of `@inquirer/core`
(arguments: full body, cursor position, configured page size) and `pfx`
for the `usePrefix` glyph; both are out-of-scope collaborators supplied
by the host. `firstRender` is the value of the `firstRender` ref when
the render begins (the ref is cleared during the first render). -/
def renderFrame (paginate : String → Nat → Option Nat → String) (pfx : String)
    (cfg : SelectConfig) (s : PromptState) (firstRender : Bool) : String :=
  let message := headerMessage cfg.message firstRender
  let choice? := choiceAt cfg.choices s.cursorPosition
  if s.status = .done then
    pfx ++ " " ++ message ++ " " ++ chalkCyan (doneLabel choice?)
  else
    let windowedChoices :=
      paginate (allChoicesBody cfg.choices s.cursorPosition) s.cursorPosition cfg.pageSize
    pfx ++ " " ++ message ++ "\n" ++ windowedChoices ++ descriptionSuffix choice? ++
      cursorHide

/-- The frames of one prompt lifetime: successive renders over the given
state snapshots, threading the `firstRender` ref (set before the first
render, cleared by it, and never set again). -/
def renderSeq (paginate : String → Nat → Option Nat → String) (pfx : String)
    (cfg : SelectConfig) : List PromptState → Bool → List String
  | [], _ => []
  | s :: rest, fr => renderFrame paginate pfx cfg s fr :: renderSeq paginate pfx cfg rest false

/-! ### Occurrence of a substring and character bookkeeping -/

/-- `pat` occurs (contiguously) inside `s`. -/
def occursIn (pat s : String) : Prop :=
  ∃ a b : List Char, s.data = a ++ pat.data ++ b

/-- The character `ch` does not occur in `s`. -/
def charFree (ch : Char) (s : String) : Prop := ch ∉ s.data

instance (ch : Char) (s : String) : Decidable (charFree ch s) :=
  inferInstanceAs (Decidable (ch ∉ s.data))

/-- Character bookkeeping for a `disabled` field: its reason string, if
any, does not contain `ch`. -/
def disabledCharFree (ch : Char) : DisabledField → Prop
  | .str s => charFree ch s
  | _ => True

instance (ch : Char) (d : DisabledField) : Decidable (disabledCharFree ch d) :=
  match d with
  | .absent => inferInstanceAs (Decidable True)
  | .bool _ => inferInstanceAs (Decidable True)
  | .str s => inferInstanceAs (Decidable (charFree ch s))

/-- Per-entry character bookkeeping: none of the caller-supplied strings
of the entry contain `ch`. -/
def entryCharFree (ch : Char) : Entry → Prop
  | .separator sep => charFree ch sep
  | .choice c =>
    charFree ch c.value ∧ charFree ch (c.name.getD "") ∧
      charFree ch (c.description.getD "") ∧ disabledCharFree ch c.disabled

instance (ch : Char) (e : Entry) : Decidable (entryCharFree ch e) :=
  match e with
  | .separator sep => inferInstanceAs (Decidable (charFree ch sep))
  | .choice c =>
    inferInstanceAs (Decidable (charFree ch c.value ∧ charFree ch (c.name.getD "") ∧
      charFree ch (c.description.getD "") ∧ disabledCharFree ch c.disabled))

/-- Every character that the renderer itself (as opposed to the
caller-supplied strings) can contribute to a frame: the SGR style codes,
the cursor-hide sequence, spaces, newlines, the pointer glyph, the
generic disabled marker and its dash. -/
def renderLiterals : String := "\x1b[12369m (disabled)-❯\n?5"

/-- Every character the renderer itself can contribute to a done frame:
SGR style codes, spaces, and the one-time hint text. -/
def doneFrameLiterals : String := "\x1b[12369m (Use arrow keys)"

/-! ### Concrete fixtures used by witnesses and counterexamples -/

/-- A choice whose `disabled` field is the empty string: present, not the
boolean `false`, yet falsy (so selectable). -/
def emptyStrDisabledChoice : Choice := ⟨"a", none, none, .str ""⟩

/-- A one-element choices list whose only entry carries `disabled = ""`. -/
def emptyStrDisabledChoices : List Entry := [.choice emptyStrDisabledChoice]

/-- Fixture choice `A` (selectable). -/
def wA : Choice := ⟨"a", some "Alpha", none, .absent⟩

/-- Fixture choice `B` (disabled). -/
def wB : Choice := ⟨"b", some "Beta", none, .bool true⟩

/-- Fixture choice `C` (selectable, with a description). -/
def wC : Choice := ⟨"c", some "Gamma", some "the third one", .absent⟩

/-- Fixture list: selectable, separator, disabled, selectable. -/
def wChoices : List Entry := [.choice wA, .separator "---", .choice wB, .choice wC]

/-- Fixture configuration over `wChoices`. -/
def wConfig : SelectConfig := ⟨"pick one", wChoices, none⟩

/-- An identity windowing collaborator (viewport large enough for the
whole list). -/
def pagId : String → Nat → Option Nat → String := fun s _ _ => s

/-- Fixture list with no selectable entry: a separator and a disabled
choice. -/
def wDisabledOnly : List Entry := [.separator "---", .choice wB]

/-- Fixture list with exactly one selectable entry. -/
def wSingle : List Entry := [.separator "---", .choice wA]

/-- Fixture list surrounding the only two selectable entries with runs
of disabled entries and separators. -/
def wGauntlet : List Entry :=
  [.choice wB, .separator "a", .separator "b", .choice wB, .choice wA, .choice wB]

/-! ### Helper lemmas -/

theorem isSelectableChoice_iff (o : Option Entry) :
    isSelectableChoice o = true ↔
      ∃ c : Choice, o = some (.choice c) ∧ c.disabled.truthy = false := by
  cases o with
  | none => simp [isSelectableChoice]
  | some e =>
    cases e with
    | choice c => simp [isSelectableChoice]
    | separator sep => simp [isSelectableChoice]

theorem status_eq_pending_of_ne_done {st : Status} (h : ¬st = .done) : st = .pending := by
  cases st
  · rfl
  · exact absurd rfl h

theorem findIdx?_some_spec {α : Type} (p : α → Bool) :
    ∀ (l : List α) (j : Nat), List.findIdx? p l = some j →
      (∃ x, l[j]? = some x ∧ p x = true) ∧
        ∀ m x, m < j → l[m]? = some x → p x = false := by
  intro l
  induction l with
  | nil => intro j h; simp [List.findIdx?] at h
  | cons a l ih =>
    intro j h
    rw [List.findIdx?_cons] at h
    by_cases hp : p a = true
    · simp [hp] at h
      subst h
      exact ⟨⟨a, by simp, hp⟩, by omega⟩
    · simp [hp] at h
      obtain ⟨k, hk, hkj⟩ := h
      obtain ⟨hx, hm⟩ := ih k hk
      subst hkj
      refine ⟨by simpa using hx, ?_⟩
      intro m x hmk hmx
      cases m with
      | zero => simp at hmx; subst hmx; simpa using hp
      | succ m => exact hm m x (by omega) (by simpa using hmx)

theorem initState_ok_spec {choices : List Entry} {s : PromptState}
    (h : initState choices = .ok s) :
    s.status = .pending ∧ isSelectableChoice choices[s.cursorPosition]? = true ∧
      ∀ m, m < s.cursorPosition → isSelectableChoice choices[m]? = false := by
  unfold initState at h
  cases hf : choices.findIdx? (fun e => isSelectableChoice (some e)) with
  | none => rw [hf] at h; exact absurd h (by simp)
  | some i =>
    rw [hf] at h
    obtain ⟨⟨x, hx, hpx⟩, hmin⟩ := findIdx?_some_spec _ choices i hf
    cases h
    refine ⟨rfl, by simpa [hx] using hpx, ?_⟩
    intro m hm
    cases hme : choices[m]? with
    | none => simp [isSelectableChoice]
    | some e => simpa using hmin m e hm hme

theorem initState_error_iff (choices : List Entry) :
    initState choices =
        .error "[select prompt] No selectable choices. All choices are disabled." ↔
      ∀ e ∈ choices, isSelectableChoice (some e) = false := by
  unfold initState
  rw [← List.findIdx?_eq_none_iff]
  cases choices.findIdx? (fun e => isSelectableChoice (some e)) <;> simp

theorem stepSearch_some_selectable {choices : List Entry} {offset : Int} :
    ∀ {fuel pos r : Nat}, stepSearch choices offset fuel pos = some r →
      isSelectableChoice choices[r]? = true := by
  intro fuel
  induction fuel with
  | zero => intro pos r h; simp [stepSearch] at h
  | succ fuel ih =>
    intro pos r h
    rw [stepSearch] at h
    by_cases hsel : isSelectableChoice choices[wrapStep choices.length offset pos]? = true
    · simp [hsel] at h
      subst h
      exact hsel
    · simp [hsel] at h
      exact ih h

theorem jsIndex_selectable {choices : List Entry} {i : Int}
    (h : isSelectableChoice (jsIndex choices i) = true) :
    0 ≤ i ∧ isSelectableChoice choices[i.toNat]? = true := by
  unfold jsIndex at h
  by_cases hneg : i < 0
  · simp [hneg, isSelectableChoice] at h
  · exact ⟨by omega, by simpa [hneg] using h⟩

theorem cast_emod_toNat (m n : Nat) : ((m : Int) % (n : Int)).toNat = m % n := by
  omega

theorem wrapStep_one (len pos : Nat) :
    wrapStep len 1 pos = (pos + 1) % len := by
  rw [wrapStep, show (pos : Int) + 1 + (len : Int) = ((pos + 1 + len : Nat) : Int) by
    push_cast; ring]
  rw [cast_emod_toNat]
  simp [Nat.add_mod_right]

theorem wrapStep_neg_one {len : Nat} (h : 0 < len) (pos : Nat) :
    wrapStep len (-1) pos = (pos + (len - 1)) % len := by
  rw [wrapStep, show (pos : Int) + (-1) + (len : Int) = ((pos + (len - 1) : Nat) : Int) by
    omega]
  rw [cast_emod_toNat]

theorem wrapStep_lt {len : Nat} (h : 0 < len) (offset : Int) (pos : Nat) :
    wrapStep len offset pos < len := by
  rw [wrapStep]
  have h1 := Int.emod_nonneg ((pos : Int) + offset + len) (show (len : Int) ≠ 0 by omega)
  have h2 := Int.emod_lt_of_pos ((pos : Int) + offset + len) (show (0 : Int) < len by omega)
  omega

theorem iterate_wrapStep_one (len pos : Nat) :
    ∀ k : Nat, (wrapStep len 1)^[k + 1] pos = (pos + (k + 1)) % len := by
  intro k
  induction k with
  | zero => simpa using wrapStep_one len pos
  | succ k ih =>
    rw [Function.iterate_succ_apply' (wrapStep len 1) (k + 1) pos, ih, wrapStep_one len,
      Nat.mod_add_mod]
    congr 1

theorem iterate_wrapStep_neg_one {len : Nat} (h : 0 < len) (pos : Nat) :
    ∀ k : Nat, (wrapStep len (-1))^[k + 1] pos = (pos + (k + 1) * (len - 1)) % len := by
  intro k
  induction k with
  | zero => simpa using wrapStep_neg_one h pos
  | succ k ih =>
    rw [Function.iterate_succ_apply' (wrapStep len (-1)) (k + 1) pos, ih,
      wrapStep_neg_one h, Nat.mod_add_mod, show pos + (k + 1) * (len - 1) + (len - 1) =
        pos + (k + 1 + 1) * (len - 1) by ring]

theorem iterate_wrapStep_one_ge (len pos : Nat) {k : Nat} (hk : 1 ≤ k) :
    (wrapStep len 1)^[k] pos = (pos + k) % len := by
  have h0 := iterate_wrapStep_one len pos (k - 1)
  rw [show k - 1 + 1 = k by omega] at h0
  exact h0

theorem iterate_wrapStep_neg_one_ge {len : Nat} (h : 0 < len) (pos : Nat) {k : Nat}
    (hk : 1 ≤ k) :
    (wrapStep len (-1))^[k] pos = (pos + k * (len - 1)) % len := by
  have h0 := iterate_wrapStep_neg_one h pos (k - 1)
  rw [show k - 1 + 1 = k by omega] at h0
  exact h0

/-- Covering: whenever some entry is selectable, a selectable entry is
reached within `choices.length` wrap-around steps from any start, in
either direction. -/
theorem exists_selectable_hit {choices : List Entry} (offset : Int) (pos : Nat)
    (hoff : offset = 1 ∨ offset = -1)
    (hsel : ∃ j : Nat, isSelectableChoice choices[j]? = true) :
    ∃ k, 1 ≤ k ∧ k ≤ choices.length ∧
      isSelectableChoice choices[(wrapStep choices.length offset)^[k] pos]? = true := by
  obtain ⟨j, hj⟩ := hsel
  have hjlen : j < choices.length := by
    by_contra hge
    push_neg at hge
    rw [List.getElem?_eq_none (by omega)] at hj
    simp [isSelectableChoice] at hj
  set len := choices.length with hlen
  have hpos : 0 < len := by omega
  have hr : pos % len < len := Nat.mod_lt _ hpos
  rcases hoff with h1 | h1
  · subst h1
    refine ⟨(j + len - pos % len - 1) % len + 1, by omega,
      by have := Nat.mod_lt (j + len - pos % len - 1) hpos; omega, ?_⟩
    rw [iterate_wrapStep_one_ge len pos (by omega)]
    rw [← Nat.mod_add_mod]
    rw [show pos % len + ((j + len - pos % len - 1) % len + 1) =
      (j + len - pos % len - 1) % len + (pos % len + 1) by omega]
    rw [Nat.mod_add_mod]
    rw [show j + len - pos % len - 1 + (pos % len + 1) = j + len by omega]
    rw [Nat.add_mod_right, Nat.mod_eq_of_lt hjlen]
    exact hj
  · subst h1
    refine ⟨(pos % len + len - j - 1) % len + 1, by omega,
      by have := Nat.mod_lt (pos % len + len - j - 1) hpos; omega, ?_⟩
    rw [iterate_wrapStep_neg_one_ge hpos pos (by omega)]
    set k := (pos % len + len - j - 1) % len + 1 with hkdef
    have hmodeq : (pos + k * (len - 1)) % len = j % len := by
      have hcancel : Nat.ModEq len (pos + k * (len - 1) + k) (j + k) := by
        rw [show pos + k * (len - 1) + k = pos + k * len by
          have : k * (len - 1) + k = k * len := by
            rw [← Nat.mul_succ]
            congr 1
            omega
          omega]
        have hl : (pos + k * len) % len = pos % len := Nat.add_mul_mod_self_right pos k len
        have hrr : (j + k) % len = pos % len := by
          rw [hkdef]
          rw [show j + ((pos % len + len - j - 1) % len + 1) =
            (pos % len + len - j - 1) % len + (j + 1) by omega]
          rw [Nat.mod_add_mod]
          rw [show pos % len + len - j - 1 + (j + 1) = pos % len + len by omega]
          rw [Nat.add_mod_right]
          simp
        unfold Nat.ModEq
        rw [hl, hrr]
      exact Nat.ModEq.add_right_cancel (Nat.ModEq.refl k) hcancel
    rw [hmodeq, Nat.mod_eq_of_lt hjlen]
    exact hj

/-- Any prefix-run of `stepSearch` that is long enough to reach a
selectable candidate finds the first one: the result is the first
iterate of the wrap-around step whose entry is selectable. -/
theorem stepSearch_first_hit {choices : List Entry} {offset : Int} :
    ∀ (fuel pos : Nat),
      (∃ k, 1 ≤ k ∧ k ≤ fuel ∧
        isSelectableChoice choices[(wrapStep choices.length offset)^[k] pos]? = true) →
      ∃ k, 1 ≤ k ∧ k ≤ fuel ∧
        stepSearch choices offset fuel pos =
          some ((wrapStep choices.length offset)^[k] pos) ∧
        isSelectableChoice choices[(wrapStep choices.length offset)^[k] pos]? = true ∧
        ∀ j, 1 ≤ j → j < k →
          isSelectableChoice choices[(wrapStep choices.length offset)^[j] pos]? = false := by
  intro fuel
  induction fuel with
  | zero =>
    intro pos hex
    obtain ⟨k, hk1, hk0, _⟩ := hex
    omega
  | succ fuel ih =>
    intro pos hex
    by_cases hsel :
        isSelectableChoice choices[wrapStep choices.length offset pos]? = true
    · refine ⟨1, le_refl 1, by omega, ?_, by simpa using hsel, by omega⟩
      rw [stepSearch]
      simp [hsel]
    · obtain ⟨k, hk1, hkf, hksel⟩ := hex
      have hk2 : 2 ≤ k := by
        by_contra hlt
        push_neg at hlt
        have hk : k = 1 := by omega
        subst hk
        exact hsel (by simpa using hksel)
      have hshift : (wrapStep choices.length offset)^[k] pos =
          (wrapStep choices.length offset)^[k - 1] (wrapStep choices.length offset pos) := by
        have h0 := Function.iterate_succ_apply (wrapStep choices.length offset) (k - 1) pos
        rw [show (k - 1).succ = k by omega] at h0
        exact h0
      obtain ⟨k', hk'1, hk'f, hss, hsel', hmin⟩ :=
        ih (wrapStep choices.length offset pos)
          ⟨k - 1, by omega, by omega, by rw [← hshift]; exact hksel⟩
      refine ⟨k' + 1, by omega, by omega, ?_, ?_, ?_⟩
      · rw [stepSearch, if_neg hsel, hss, Function.iterate_succ_apply]
      · rw [Function.iterate_succ_apply]
        exact hsel'
      · intro j hj1 hjk
        rcases Nat.lt_or_ge j 2 with hlt | hge
        · have hj : j = 1 := by omega
          subst hj
          simpa using (Bool.not_eq_true _).mp hsel
        · rw [show j = (j - 1) + 1 by omega, Function.iterate_succ_apply]
          exact hmin (j - 1) (by omega) (by omega)

/-- The cursor invariant: in every reachable pending state the cursor
rests on a selectable entry. -/
theorem cursorSelectable_of_reachable {choices : List Entry} {s : PromptState}
    (hr : Reachable choices s) (hp : s.status = .pending) :
    isSelectableChoice choices[s.cursorPosition]? = true := by
  induction hr with
  | init s h => exact (initState_ok_spec h).2.1
  | step s k s' out hr htrans ih =>
    unfold transition at htrans
    by_cases hd : s.status = .done
    · simp [hd] at htrans
      obtain ⟨h1, _⟩ := htrans
      subst h1
      exact absurd hp (by simp [hd])
    · have hpend := status_eq_pending_of_ne_done hd
      simp [hd] at htrans
      cases k with
      | enter =>
        simp [handleKeypress] at htrans
        obtain ⟨h1, _⟩ := htrans
        subst h1
        simp at hp
      | up =>
        rw [handleKeypress] at htrans
        cases hds : directionalStep choices (-1) s.cursorPosition with
        | none => rw [hds] at htrans; exact absurd htrans (by simp)
        | some p =>
          rw [hds] at htrans
          simp at htrans
          obtain ⟨h1, _⟩ := htrans
          subst h1
          exact stepSearch_some_selectable hds
      | down =>
        rw [handleKeypress] at htrans
        cases hds : directionalStep choices 1 s.cursorPosition with
        | none => rw [hds] at htrans; exact absurd htrans (by simp)
        | some p =>
          rw [hds] at htrans
          simp at htrans
          obtain ⟨h1, _⟩ := htrans
          subst h1
          exact stepSearch_some_selectable hds
      | number n =>
        rw [handleKeypress] at htrans
        by_cases hsel : isSelectableChoice (jsIndex choices ((n : Int) - 1)) = true
        · simp [hsel] at htrans
          obtain ⟨h1, _⟩ := htrans
          subst h1
          have hge := (jsIndex_selectable hsel).1
          have hsel' := (jsIndex_selectable hsel).2
          have heq : ((n : Int) - 1).toNat = n - 1 := by omega
          rw [heq] at hsel'
          exact hsel'
        · simp [hsel] at htrans
          obtain ⟨h1, _⟩ := htrans
          subst h1
          exact ih hpend

theorem charFree_append {ch : Char} {a b : String} :
    charFree ch (a ++ b) ↔ charFree ch a ∧ charFree ch b := by
  unfold charFree
  rw [String.data_append, List.mem_append]
  tauto

theorem charFree_mono {ch : Char} {s t : String} (hsub : ∀ c ∈ t.data, c ∈ s.data)
    (h : charFree ch s) : charFree ch t := fun hm => h (hsub ch hm)

theorem charFree_of_empty {ch : Char} : charFree ch "" := by
  simp [charFree]

theorem not_occursIn_of_charFree {pat s : String} {ch : Char} (hch : ch ∈ pat.data)
    (hfree : charFree ch s) : ¬occursIn pat s := by
  rintro ⟨a, b, hab⟩
  refine hfree ?_
  rw [charFree] at hfree
  have : ch ∈ s.data := by
    rw [hab]
    simp only [List.mem_append]
    exact Or.inl (Or.inr hch)
  exact this

theorem charFree_chalkBold {ch : Char} {s : String}
    (hlit : charFree ch "\x1b[12m") (hs : charFree ch s) :
    charFree ch (chalkBold s) := by
  rw [chalkBold]
  exact charFree_append.mpr
    ⟨charFree_append.mpr ⟨charFree_mono (by decide) hlit, hs⟩,
      charFree_mono (by decide) hlit⟩

theorem charFree_chalkDim {ch : Char} {s : String}
    (hlit : charFree ch "\x1b[2m") (hs : charFree ch s) :
    charFree ch (chalkDim s) := by
  rw [chalkDim]
  exact charFree_append.mpr
    ⟨charFree_append.mpr ⟨charFree_mono (by decide) hlit, hs⟩,
      charFree_mono (by decide) hlit⟩

theorem charFree_chalkCyan {ch : Char} {s : String}
    (hlit : charFree ch "\x1b[369m") (hs : charFree ch s) :
    charFree ch (chalkCyan s) := by
  rw [chalkCyan]
  exact charFree_append.mpr
    ⟨charFree_append.mpr ⟨charFree_mono (by decide) hlit, hs⟩,
      charFree_mono (by decide) hlit⟩

theorem charFree_jsOr {ch : Char} {a b : String} (ha : charFree ch a)
    (hb : charFree ch b) : charFree ch (jsOr a b) := by
  rw [jsOr]
  split
  · exact hb
  · exact ha

theorem charFree_displayLabel {ch : Char} {c : Choice} (hv : charFree ch c.value)
    (hn : charFree ch (c.name.getD "")) : charFree ch (displayLabel c) :=
  charFree_jsOr hn hv

theorem charFree_renderEntry {ch : Char} {cur i : Nat} {e : Entry}
    (hlit : charFree ch renderLiterals) (he : entryCharFree ch e) :
    charFree ch (renderEntry cur i e) := by
  cases e with
  | separator sep =>
    rw [renderEntry]
    exact charFree_append.mpr ⟨charFree_mono (by decide) hlit, he⟩
  | choice c =>
    obtain ⟨hv, hn, _, hdis⟩ := he
    have hline : charFree ch (displayLabel c) := charFree_displayLabel hv hn
    rw [renderEntry]
    by_cases hd : c.disabled.truthy = true
    · simp only [hd, if_true]
      refine charFree_chalkDim (charFree_mono (by decide) hlit) ?_
      refine charFree_append.mpr
        ⟨charFree_append.mpr
          ⟨charFree_append.mpr ⟨charFree_mono (by decide) hlit, hline⟩,
            charFree_mono (by decide) hlit⟩, ?_⟩
      cases hdd : c.disabled with
      | absent => simp only [hdd]; exact charFree_mono (by decide) hlit
      | bool b => simp only [hdd]; exact charFree_mono (by decide) hlit
      | str s2 =>
        simp only [hdd]
        rw [hdd] at hdis
        exact hdis
    · simp only [hd, if_false]
      by_cases hcur : (i == cur) = true
      · simp only [hcur, if_true]
        refine charFree_chalkCyan (charFree_mono (by decide) hlit) ?_
        exact charFree_append.mpr
          ⟨charFree_append.mpr ⟨charFree_mono (by decide) hlit,
            charFree_mono (by decide) hlit⟩, hline⟩
      · simp only [hcur, if_false]
        exact charFree_append.mpr ⟨charFree_mono (by decide) hlit, hline⟩

theorem charFree_joinSep {ch : Char} {sep : String} (hsep : charFree ch sep) :
    ∀ {ls : List String}, (∀ l ∈ ls, charFree ch l) → charFree ch (joinSep sep ls) := by
  intro ls
  induction ls with
  | nil => intro _; exact charFree_of_empty
  | cons l rest ih =>
    intro h
    cases rest with
    | nil => simpa [joinSep] using h l (by simp)
    | cons r rs =>
      rw [joinSep]
      exact charFree_append.mpr
        ⟨charFree_append.mpr ⟨h l (by simp), hsep⟩,
          ih fun x hx => h x (by simp [hx])⟩

theorem charFree_renderLines {ch : Char} {cur : Nat} :
    ∀ (choices : List Entry), (∀ e ∈ choices, entryCharFree ch e) →
      charFree ch renderLiterals →
      ∀ (i : Nat), ∀ l ∈ renderLines cur i choices, charFree ch l := by
  intro choices
  induction choices with
  | nil => intro _ _ i l hl; simp [renderLines] at hl
  | cons e rest ih =>
    intro hent hlit i l hl
    rw [renderLines] at hl
    rcases List.mem_cons.mp hl with h | h
    · subst h
      exact charFree_renderEntry hlit (hent e (by simp))
    · exact ih (fun x hx => hent x (by simp [hx])) hlit (i + 1) l h

theorem charFree_allChoicesBody {ch : Char} {choices : List Entry} {cur : Nat}
    (hlit : charFree ch renderLiterals)
    (hent : ∀ e ∈ choices, entryCharFree ch e) :
    charFree ch (allChoicesBody choices cur) := by
  rw [allChoicesBody]
  refine charFree_joinSep (charFree_mono (by decide) hlit) ?_
  intro l hl
  exact charFree_renderLines choices hent hlit 0 l hl

theorem charFree_doneLabel {ch : Char} {choices : List Entry} {cur : Nat}
    (hent : ∀ e ∈ choices, entryCharFree ch e) :
    charFree ch (doneLabel (choiceAt choices cur)) := by
  rw [choiceAt]
  cases hc : choices[cur]? with
  | none => exact charFree_of_empty
  | some e =>
    cases e with
    | separator sep => exact charFree_of_empty
    | choice c =>
      obtain ⟨hv, hn, _, _⟩ := hent (Entry.choice c) (List.getElem?_mem hc)
      exact charFree_displayLabel hv hn

theorem charFree_descriptionSuffix {ch : Char} {choices : List Entry} {cur : Nat}
    (hnl : charFree ch "\n")
    (hent : ∀ e ∈ choices, entryCharFree ch e) :
    charFree ch (descriptionSuffix (choiceAt choices cur)) := by
  rw [choiceAt]
  cases hc : choices[cur]? with
  | none => exact charFree_of_empty
  | some e =>
    cases e with
    | separator sep => exact charFree_of_empty
    | choice c =>
      obtain ⟨_, _, hdsc, _⟩ := hent (Entry.choice c) (List.getElem?_mem hc)
      rw [descriptionSuffix]
      cases hd : c.description with
      | none => exact charFree_of_empty
      | some d =>
        show charFree ch (if (d == "") = true then "" else "\n" ++ d)
        by_cases hde : (d == "") = true
        · rw [if_pos hde]
          exact charFree_of_empty
        · rw [if_neg hde]
          refine charFree_append.mpr ⟨hnl, ?_⟩
          rw [hd] at hdsc
          exact hdsc

theorem charFree_headerMessage_false {ch : Char} {msg : String}
    (hlit : charFree ch "\x1b[12m") (hmsg : charFree ch msg) :
    charFree ch (headerMessage msg false) := by
  rw [headerMessage]
  show charFree ch (chalkBold msg ++ "")
  exact charFree_append.mpr ⟨charFree_chalkBold hlit hmsg, charFree_of_empty⟩

theorem charFree_headerMessage {ch : Char} {msg : String} {fr : Bool}
    (hlit : charFree ch "\x1b[12m") (hhint : charFree ch (chalkDim hintText))
    (hmsg : charFree ch msg) : charFree ch (headerMessage msg fr) := by
  rw [headerMessage]
  refine charFree_append.mpr ⟨charFree_chalkBold hlit hmsg, ?_⟩
  cases fr
  · exact charFree_of_empty
  · exact hhint

theorem charFree_renderFrame_done {ch : Char}
    {paginate : String → Nat → Option Nat → String} {pfx : String}
    {cfg : SelectConfig} {s : PromptState} {fr : Bool} (hs : s.status = .done)
    (hlit : charFree ch doneFrameLiterals)
    (hpfx : charFree ch pfx) (hmsg : charFree ch cfg.message)
    (hlabel : charFree ch (doneLabel (choiceAt cfg.choices s.cursorPosition))) :
    charFree ch (renderFrame paginate pfx cfg s fr) := by
  have hsp : charFree ch " " := charFree_mono (by decide) hlit
  have hheader : charFree ch (headerMessage cfg.message fr) :=
    charFree_headerMessage (charFree_mono (by decide) hlit)
      (charFree_chalkDim (charFree_mono (by decide) hlit)
        (charFree_mono (by decide) hlit)) hmsg
  simp only [renderFrame]
  rw [if_pos hs]
  exact charFree_append.mpr
    ⟨charFree_append.mpr
      ⟨charFree_append.mpr ⟨charFree_append.mpr ⟨hpfx, hsp⟩, hheader⟩, hsp⟩,
      charFree_chalkCyan (charFree_mono (by decide) hlit) hlabel⟩

theorem charFree_renderFrame_false {ch : Char}
    {paginate : String → Nat → Option Nat → String} {pfx : String}
    {cfg : SelectConfig} {s : PromptState}
    (hpag : ∀ (b : String) (c : Nat) (p : Option Nat),
      charFree ch b → charFree ch (paginate b c p))
    (hlit : charFree ch renderLiterals)
    (hpfx : charFree ch pfx) (hmsg : charFree ch cfg.message)
    (hent : ∀ e ∈ cfg.choices, entryCharFree ch e) :
    charFree ch (renderFrame paginate pfx cfg s false) := by
  have hsp : charFree ch " " := charFree_mono (by decide) hlit
  have hnl : charFree ch "\n" := charFree_mono (by decide) hlit
  have hheader : charFree ch (headerMessage cfg.message false) :=
    charFree_headerMessage_false (charFree_mono (by decide) hlit) hmsg
  simp only [renderFrame]
  by_cases hs : s.status = .done
  · rw [if_pos hs]
    exact charFree_append.mpr
      ⟨charFree_append.mpr
        ⟨charFree_append.mpr ⟨charFree_append.mpr ⟨hpfx, hsp⟩, hheader⟩, hsp⟩,
        charFree_chalkCyan (charFree_mono (by decide) hlit)
          (charFree_doneLabel hent)⟩
  · rw [if_neg hs]
    refine charFree_append.mpr
      ⟨charFree_append.mpr
        ⟨charFree_append.mpr
          ⟨charFree_append.mpr
            ⟨charFree_append.mpr ⟨charFree_append.mpr ⟨hpfx, hsp⟩, hheader⟩, hnl⟩,
            hpag _ _ _ (charFree_allChoicesBody hlit hent)⟩,
          charFree_descriptionSuffix hnl hent⟩,
        charFree_mono (by decide) hlit⟩

theorem hint_occursIn_renderFrame_first
    (paginate : String → Nat → Option Nat → String) (pfx : String)
    (cfg : SelectConfig) (s : PromptState) :
    occursIn hintText (renderFrame paginate pfx cfg s true) := by
  simp only [renderFrame]
  by_cases hs : s.status = .done
  · rw [if_pos hs]
    refine ⟨(pfx ++ " " ++ chalkBold cfg.message ++ "\x1b[2m").data,
      ("\x1b[22m" ++ " " ++
        chalkCyan (doneLabel (choiceAt cfg.choices s.cursorPosition))).data, ?_⟩
    simp [headerMessage, chalkDim, chalkBold, chalkCyan, String.data_append]
  · rw [if_neg hs]
    refine ⟨(pfx ++ " " ++ chalkBold cfg.message ++ "\x1b[2m").data,
      ("\x1b[22m" ++ "\n" ++
        paginate (allChoicesBody cfg.choices s.cursorPosition) s.cursorPosition
          cfg.pageSize ++
        descriptionSuffix (choiceAt cfg.choices s.cursorPosition) ++
        cursorHide).data, ?_⟩
    simp [headerMessage, chalkDim, chalkBold, String.data_append]

theorem renderSeq_tail_false (paginate : String → Nat → Option Nat → String)
    (pfx : String) (cfg : SelectConfig) :
    ∀ (states : List PromptState) (f : String),
      f ∈ renderSeq paginate pfx cfg states false →
      ∃ s ∈ states, f = renderFrame paginate pfx cfg s false := by
  intro states
  induction states with
  | nil => intro f hf; simp [renderSeq] at hf
  | cons s rest ih =>
    intro f hf
    rw [renderSeq] at hf
    rcases List.mem_cons.mp hf with h | h
    · exact ⟨s, by simp, h⟩
    · obtain ⟨s', hs', he⟩ := ih f h
      exact ⟨s', by simp [hs'], he⟩

/-- The directional search from any start returns the first wrap-around
iterate whose entry is selectable, provided some entry is selectable. -/
theorem directionalStep_first_hit {choices : List Entry} (offset : Int) (pos : Nat)
    (hoff : offset = 1 ∨ offset = -1)
    (hsel : ∃ e ∈ choices, isSelectableChoice (some e) = true) :
    ∃ k, 1 ≤ k ∧
      directionalStep choices offset pos =
        some ((wrapStep choices.length offset)^[k] pos) ∧
      isSelectableChoice choices[(wrapStep choices.length offset)^[k] pos]? = true ∧
      ∀ j, 1 ≤ j → j < k →
        isSelectableChoice choices[(wrapStep choices.length offset)^[j] pos]? = false := by
  have hsel' : ∃ j : Nat, isSelectableChoice choices[j]? = true := by
    obtain ⟨e, he, hse⟩ := hsel
    obtain ⟨i, hi⟩ := List.mem_iff_getElem?.mp he
    exact ⟨i, by rw [hi]; exact hse⟩
  obtain ⟨k, hk1, hkl, hksel⟩ := exists_selectable_hit offset pos hoff hsel'
  obtain ⟨k', hk'1, _, hss, hksel', hmin⟩ :=
    stepSearch_first_hit choices.length pos ⟨k, hk1, hkl, hksel⟩
  exact ⟨k', hk'1, hss, hksel', hmin⟩

/-! ### Claim theorems -/

/-- Claim C1 (counterexample): the claim as stated — the cursor entry's
`disabled` field is absent or `false` — fails. With the single choice
`{ value := "a", disabled := "" }` the empty string is falsy, so the
entry is selectable and the initial pending state rests on it, yet its
`disabled` field is present and is not the boolean `false`. -/
theorem claim1_counterexample :
    Reachable emptyStrDisabledChoices ⟨.pending, 0⟩ ∧
      (⟨.pending, 0⟩ : PromptState).status = .pending ∧
      emptyStrDisabledChoices[(⟨.pending, 0⟩ : PromptState).cursorPosition]? =
        some (.choice emptyStrDisabledChoice) ∧
      emptyStrDisabledChoice.disabled ≠ .absent ∧
      emptyStrDisabledChoice.disabled ≠ .bool false :=
  ⟨.init _ rfl, rfl, rfl, by decide, by decide⟩

/-- Claim C1 (amended): in every reachable pending state — after
initialization and after any sequence of keypress events —
`cursorPosition` indexes an entry of `choices` that is a Choice (not a
Separator) whose `disabled` field is falsy (absent, `false`, or the
empty string). -/
theorem claim1_cursor_invariant (choices : List Entry) (s : PromptState)
    (hr : Reachable choices s) (hp : s.status = .pending) :
    ∃ c : Choice, choices[s.cursorPosition]? = some (.choice c) ∧
      c.disabled.truthy = false :=
  (isSelectableChoice_iff _).mp (cursorSelectable_of_reachable hr hp)

theorem claim1_cursor_invariant_witness :
    ∃ c : Choice, wChoices[(⟨.pending, 0⟩ : PromptState).cursorPosition]? =
      some (.choice c) ∧ c.disabled.truthy = false :=
  claim1_cursor_invariant wChoices ⟨.pending, 0⟩ (.init _ rfl) rfl

/-- Claim C2: a Confirm (enter) event on a pending state resolves the
prompt with exactly the `value` field of the Choice at `cursorPosition`
at that moment. -/
theorem claim2_confirm_resolves_value (choices : List Entry) (s : PromptState)
    (c : Choice) (hp : s.status = .pending)
    (hc : choices[s.cursorPosition]? = some (.choice c)) :
    transition choices s .enter = some ({ s with status := .done }, some c.value) := by
  have hd : ¬s.status = .done := by simp [hp]
  simp [transition, hd, handleKeypress, choiceAt, hc]

theorem claim2_confirm_resolves_value_witness :
    transition wChoices ⟨.pending, 3⟩ .enter = some (⟨.done, 3⟩, some "c") :=
  claim2_confirm_resolves_value wChoices ⟨.pending, 3⟩ wC rfl rfl

/-- Claim C3: on a pending state with at least one selectable entry, an
arrow key (up = offset `-1`, down = offset `+1`) moves the cursor to the
first index reached by repeatedly adding the offset modulo the list
length (wrapping in both directions) that is selectable; and when the
cursor sits on the only selectable entry, the step leaves it there. -/
theorem claim3_directional_step (choices : List Entry) (s : PromptState)
    (kev : KeyEvent) (offset : Int) (hp : s.status = .pending)
    (hoff : (kev = .up ∧ offset = -1) ∨ (kev = .down ∧ offset = 1))
    (hsel : ∃ e ∈ choices, isSelectableChoice (some e) = true) :
    (∃ k, 1 ≤ k ∧
      transition choices s kev =
        some ({ s with cursorPosition :=
          (wrapStep choices.length offset)^[k] s.cursorPosition }, none) ∧
      isSelectableChoice
        choices[(wrapStep choices.length offset)^[k] s.cursorPosition]? = true ∧
      ∀ j, 1 ≤ j → j < k →
        isSelectableChoice
          choices[(wrapStep choices.length offset)^[j] s.cursorPosition]? = false) ∧
    ((isSelectableChoice choices[s.cursorPosition]? = true ∧
        ∀ i, isSelectableChoice choices[i]? = true → i = s.cursorPosition) →
      transition choices s kev = some (s, none)) := by
  have hd : ¬s.status = .done := by simp [hp]
  have hoff' : offset = 1 ∨ offset = -1 := by
    rcases hoff with ⟨_, h⟩ | ⟨_, h⟩
    · exact Or.inr h
    · exact Or.inl h
  obtain ⟨k, hk1, hds, hselk, hmin⟩ :=
    directionalStep_first_hit offset s.cursorPosition hoff' hsel
  have htrans : transition choices s kev =
      some ({ s with cursorPosition :=
        (wrapStep choices.length offset)^[k] s.cursorPosition }, none) := by
    rcases hoff with ⟨hk, ho⟩ | ⟨hk, ho⟩
    · subst hk
      subst ho
      simp [transition, hd, handleKeypress, hds]
    · subst hk
      subst ho
      simp [transition, hd, handleKeypress, hds]
  refine ⟨⟨k, hk1, htrans, hselk, hmin⟩, ?_⟩
  rintro ⟨hcur, huniq⟩
  have hfix : (wrapStep choices.length offset)^[k] s.cursorPosition = s.cursorPosition :=
    huniq _ hselk
  rw [htrans, hfix]

theorem claim3_directional_step_witness :
    ((∃ k, 1 ≤ k ∧
      transition wChoices ⟨.pending, 0⟩ .down =
        some ({ status := .pending, cursorPosition :=
          (wrapStep wChoices.length 1)^[k] 0 }, none) ∧
      isSelectableChoice wChoices[(wrapStep wChoices.length 1)^[k] 0]? = true ∧
      ∀ j, 1 ≤ j → j < k →
        isSelectableChoice wChoices[(wrapStep wChoices.length 1)^[j] 0]? = false) ∧
    ((isSelectableChoice wChoices[(0 : Nat)]? = true ∧
        ∀ i, isSelectableChoice wChoices[i]? = true → i = 0) →
      transition wChoices ⟨.pending, 0⟩ .down = some (⟨.pending, 0⟩, none))) ∧
    transition wSingle ⟨.pending, 1⟩ .up = some (⟨.pending, 1⟩, none) :=
  ⟨claim3_directional_step wChoices ⟨.pending, 0⟩ .down 1 rfl (Or.inr ⟨rfl, rfl⟩)
      ⟨.choice wA, by decide, by decide⟩,
    (claim3_directional_step wSingle ⟨.pending, 1⟩ .up (-1) rfl (Or.inl ⟨rfl, rfl⟩)
        ⟨.choice wA, by decide, by decide⟩).2
      ⟨by decide, by
        intro i hi
        rcases i with _ | _ | n
        · exact absurd hi (by decide)
        · rfl
        · rw [List.getElem?_eq_none (by simp [wSingle])] at hi
          exact absurd hi (by simp [isSelectableChoice])⟩⟩

/-- Claim C4: for any choices list with at least one selectable entry the
directional search terminates from any start position (modelled with
`choices.length` fuel, shown sufficient) and returns an index whose
entry is selectable, regardless of how many consecutive disabled entries
or separators are present. -/
theorem claim4_search_terminates (choices : List Entry) (offset : Int) (pos : Nat)
    (hoff : offset = 1 ∨ offset = -1)
    (hsel : ∃ e ∈ choices, isSelectableChoice (some e) = true) :
    ∃ r, directionalStep choices offset pos = some r ∧
      isSelectableChoice choices[r]? = true := by
  obtain ⟨k, _, hds, hselk, _⟩ := directionalStep_first_hit offset pos hoff hsel
  exact ⟨_, hds, hselk⟩

theorem claim4_search_terminates_witness :
    (∃ r, directionalStep wGauntlet 1 4 = some r ∧
      isSelectableChoice wGauntlet[r]? = true) ∧
    ∃ r, directionalStep wGauntlet (-1) 4 = some r ∧
      isSelectableChoice wGauntlet[r]? = true :=
  ⟨claim4_search_terminates wGauntlet 1 4 (Or.inl rfl)
      ⟨.choice wA, by decide, by decide⟩,
    claim4_search_terminates wGauntlet (-1) 4 (Or.inr rfl)
      ⟨.choice wA, by decide, by decide⟩⟩

/-- Claim C5: on a pending state, a numeric-jump event for digit `n`
moves the cursor to exactly `n - 1` when that entry exists and is
selectable, and otherwise (absent entry, Separator, or disabled entry)
is a no-op that changes neither `cursorPosition` nor `status` and
raises no error. -/
theorem claim5_numeric_jump (choices : List Entry) (s : PromptState) (n : Nat)
    (hp : s.status = .pending) :
    (∀ c : Choice, jsIndex choices ((n : Int) - 1) = some (.choice c) →
      c.disabled.truthy = false →
      transition choices s (.number n) =
        some ({ s with cursorPosition := n - 1 }, none)) ∧
    (isSelectableChoice (jsIndex choices ((n : Int) - 1)) = false →
      transition choices s (.number n) = some (s, none)) := by
  have hd : ¬s.status = .done := by simp [hp]
  constructor
  · intro c hc hcd
    have hsel : isSelectableChoice (jsIndex choices ((n : Int) - 1)) = true := by
      rw [hc]; simp [isSelectableChoice, hcd]
    have hge : (0 : Int) ≤ (n : Int) - 1 := by
      by_contra hlt
      push_neg at hlt
      rw [jsIndex, if_pos hlt] at hc
      exact absurd hc (by simp)
    have htn : ((n : Int) - 1).toNat = n - 1 := by omega
    simp [transition, hd, handleKeypress, hsel, htn]
  · intro hsel
    simp [transition, hd, handleKeypress, hsel]

theorem claim5_numeric_jump_witness :
    transition wChoices ⟨.pending, 0⟩ (.number 4) = some (⟨.pending, 3⟩, none) ∧
      transition wChoices ⟨.pending, 0⟩ (.number 3) = some (⟨.pending, 0⟩, none) ∧
      transition wChoices ⟨.pending, 0⟩ (.number 9) = some (⟨.pending, 0⟩, none) ∧
      transition wChoices ⟨.pending, 0⟩ (.number 0) = some (⟨.pending, 0⟩, none) :=
  ⟨(claim5_numeric_jump wChoices ⟨.pending, 0⟩ 4 rfl).1 wC rfl rfl,
    (claim5_numeric_jump wChoices ⟨.pending, 0⟩ 3 rfl).2 rfl,
    (claim5_numeric_jump wChoices ⟨.pending, 0⟩ 9 rfl).2 rfl,
    (claim5_numeric_jump wChoices ⟨.pending, 0⟩ 0 rfl).2 rfl⟩

/-- Claim C6: construction fails with the configuration error exactly
when no entry of `choices` is selectable (in particular for the empty
list); when at least one selectable entry exists, construction succeeds
and the initial `cursorPosition` is the index of the first selectable
entry in list order. -/
theorem claim6_construction (choices : List Entry) :
    (initState choices =
        .error "[select prompt] No selectable choices. All choices are disabled." ↔
      ∀ e ∈ choices, isSelectableChoice (some e) = false) ∧
    ((∃ e ∈ choices, isSelectableChoice (some e) = true) →
      ∃ s : PromptState, initState choices = .ok s ∧ s.status = .pending ∧
        isSelectableChoice choices[s.cursorPosition]? = true ∧
        ∀ m, m < s.cursorPosition → isSelectableChoice choices[m]? = false) := by
  refine ⟨initState_error_iff choices, ?_⟩
  intro hsel
  cases hf : choices.findIdx? (fun e => isSelectableChoice (some e)) with
  | none =>
    rw [List.findIdx?_eq_none_iff] at hf
    obtain ⟨e, he, hsel'⟩ := hsel
    rw [hf e he] at hsel'
    exact absurd hsel' (by simp)
  | some i =>
    have hok : initState choices = .ok ⟨.pending, i⟩ := by
      unfold initState
      rw [hf]
    exact ⟨⟨.pending, i⟩, hok, initState_ok_spec hok⟩

theorem claim6_construction_witness :
    initState ([] : List Entry) =
        .error "[select prompt] No selectable choices. All choices are disabled." ∧
      initState wDisabledOnly =
        .error "[select prompt] No selectable choices. All choices are disabled." ∧
      ∃ s : PromptState, initState wChoices = .ok s ∧ s.status = .pending ∧
        isSelectableChoice wChoices[s.cursorPosition]? = true ∧
        ∀ m, m < s.cursorPosition → isSelectableChoice wChoices[m]? = false :=
  ⟨(claim6_construction []).1.mpr (by simp),
    (claim6_construction wDisabledOnly).1.mpr (by decide),
    (claim6_construction wChoices).2 ⟨.choice wA, by decide, by decide⟩⟩

/-- Claim C7: once `status = Done`, every subsequent event (confirm,
directional step, or numeric jump) is a no-op: the state is returned
unchanged and no value is resolved again. -/
theorem claim7_done_absorbing (choices : List Entry) (s : PromptState) (k : KeyEvent)
    (hd : s.status = .done) : transition choices s k = some (s, none) := by
  simp [transition, hd]

theorem claim7_done_absorbing_witness :
    transition wChoices ⟨.done, 3⟩ .down = some (⟨.done, 3⟩, none) :=
  claim7_done_absorbing wChoices ⟨.done, 3⟩ .down rfl

/-- Claim C8: when `status = Done` the frame is the single collapsed
line `prefix + header + display label` of the confirmed choice — no list
body — and (for inputs that do not themselves contain the frame's
distinguishing characters) it contains no newline and no cursor-hiding
control sequence; every frame rendered while `status = Pending` ends
with the cursor-hiding control sequence. -/
theorem claim8_done_and_pending_frames
    (paginate : String → Nat → Option Nat → String) (pfx : String)
    (cfg : SelectConfig) (s : PromptState) (fr : Bool)
    (hq : charFree '?' pfx ∧ charFree '?' cfg.message ∧
      charFree '?' (doneLabel (choiceAt cfg.choices s.cursorPosition)))
    (hn : charFree '\n' pfx ∧ charFree '\n' cfg.message ∧
      charFree '\n' (doneLabel (choiceAt cfg.choices s.cursorPosition))) :
    (s.status = .done →
      renderFrame paginate pfx cfg s fr =
        pfx ++ " " ++ headerMessage cfg.message fr ++ " " ++
          chalkCyan (doneLabel (choiceAt cfg.choices s.cursorPosition)) ∧
      ¬occursIn cursorHide (renderFrame paginate pfx cfg s fr) ∧
      charFree '\n' (renderFrame paginate pfx cfg s fr)) ∧
    (s.status = .pending →
      ∃ t : String, renderFrame paginate pfx cfg s fr = t ++ cursorHide) := by
  constructor
  · intro hs
    refine ⟨?_, ?_, ?_⟩
    · simp only [renderFrame]
      rw [if_pos hs]
    · exact not_occursIn_of_charFree (by decide)
        (charFree_renderFrame_done hs (by decide) hq.1 hq.2.1 hq.2.2)
    · exact charFree_renderFrame_done hs (by decide) hn.1 hn.2.1 hn.2.2
  · intro hs
    have hd : ¬s.status = .done := by simp [hs]
    simp only [renderFrame]
    rw [if_neg hd]
    exact ⟨_, rfl⟩

theorem claim8_done_and_pending_frames_witness :
    renderFrame pagId ">" wConfig ⟨.done, 3⟩ false =
        ">" ++ " " ++ headerMessage wConfig.message false ++ " " ++
          chalkCyan (doneLabel (choiceAt wConfig.choices 3)) ∧
      ¬occursIn cursorHide (renderFrame pagId ">" wConfig ⟨.done, 3⟩ false) ∧
      charFree '\n' (renderFrame pagId ">" wConfig ⟨.done, 3⟩ false) ∧
      ∃ t : String, renderFrame pagId ">" wConfig ⟨.pending, 3⟩ false =
        t ++ cursorHide := by
  have h1 := (claim8_done_and_pending_frames pagId ">" wConfig ⟨.done, 3⟩ false
    ⟨by decide, by decide, by decide⟩ ⟨by decide, by decide, by decide⟩).1 rfl
  have h2 := (claim8_done_and_pending_frames pagId ">" wConfig ⟨.pending, 3⟩ false
    ⟨by decide, by decide, by decide⟩ ⟨by decide, by decide, by decide⟩).2 rfl
  exact ⟨h1.1, h1.2.1, h1.2.2, h2⟩

/-- Claim C9: over one prompt lifetime (the `firstRender` ref starting
true and cleared by the first render), the one-time hint string occurs
in the first rendered frame and — for inputs and a windowing collaborator
that cannot themselves contribute the hint's characters — in no later
frame. -/
theorem claim9_hint_first_render_only
    (paginate : String → Nat → Option Nat → String) (pfx : String)
    (cfg : SelectConfig) (states : List PromptState)
    (hpag : ∀ (b : String) (c : Nat) (p : Option Nat),
      charFree 'U' b → charFree 'U' (paginate b c p))
    (hpfx : charFree 'U' pfx) (hmsg : charFree 'U' cfg.message)
    (hent : ∀ e ∈ cfg.choices, entryCharFree 'U' e) :
    (∀ f, (renderSeq paginate pfx cfg states true).head? = some f →
      occursIn hintText f) ∧
    ∀ f ∈ (renderSeq paginate pfx cfg states true).tail, ¬occursIn hintText f := by
  constructor
  · intro f hf
    cases states with
    | nil => simp [renderSeq] at hf
    | cons s rest =>
      rw [renderSeq] at hf
      simp only [List.head?_cons, Option.some_inj] at hf
      exact hf ▸ hint_occursIn_renderFrame_first paginate pfx cfg s
  · intro f hf
    cases states with
    | nil => simp [renderSeq] at hf
    | cons s rest =>
      rw [renderSeq] at hf
      simp only [List.tail_cons] at hf
      obtain ⟨s', _, he⟩ := renderSeq_tail_false paginate pfx cfg rest f hf
      subst he
      exact not_occursIn_of_charFree (by decide)
        (charFree_renderFrame_false hpag (by decide) hpfx hmsg hent)

theorem claim9_hint_first_render_only_witness :
    (∀ f, (renderSeq pagId ">" wConfig
        [⟨.pending, 0⟩, ⟨.pending, 3⟩, ⟨.done, 3⟩] true).head? = some f →
      occursIn hintText f) ∧
    ∀ f ∈ (renderSeq pagId ">" wConfig
        [⟨.pending, 0⟩, ⟨.pending, 3⟩, ⟨.done, 3⟩] true).tail,
      ¬occursIn hintText f :=
  claim9_hint_first_render_only pagId ">" wConfig
    [⟨.pending, 0⟩, ⟨.pending, 3⟩, ⟨.done, 3⟩]
    (fun _ _ _ h => h) (by decide) (by decide) (by decide)

/-- Claim C10: the Confirm event changes only `status`; `cursorPosition`
is untouched, so the resolved value and the label shown by the Done
frame are those of the entry the cursor rested on when enter was
pressed. -/
theorem claim10_confirm_only_status (paginate : String → Nat → Option Nat → String)
    (pfx : String) (cfg : SelectConfig) (s : PromptState) (c : Choice) (fr : Bool)
    (hp : s.status = .pending)
    (hc : cfg.choices[s.cursorPosition]? = some (.choice c)) :
    transition cfg.choices s .enter = some ({ s with status := .done }, some c.value) ∧
      ({ s with status := .done } : PromptState).cursorPosition = s.cursorPosition ∧
      renderFrame paginate pfx cfg { s with status := .done } fr =
        pfx ++ " " ++ headerMessage cfg.message fr ++ " " ++
          chalkCyan (displayLabel c) := by
  have hd : ¬s.status = .done := by simp [hp]
  refine ⟨?_, rfl, ?_⟩
  · simp [transition, hd, handleKeypress, choiceAt, hc]
  · simp [renderFrame, choiceAt, hc, doneLabel]

theorem claim10_confirm_only_status_witness :
    transition wConfig.choices ⟨.pending, 3⟩ .enter =
        some (⟨.done, 3⟩, some wC.value) ∧
      (⟨.done, 3⟩ : PromptState).cursorPosition =
        (⟨.pending, 3⟩ : PromptState).cursorPosition ∧
      renderFrame pagId ">" wConfig ⟨.done, 3⟩ false =
        ">" ++ " " ++ headerMessage wConfig.message false ++ " " ++
          chalkCyan (displayLabel wC) :=
  claim10_confirm_only_status pagId ">" wConfig ⟨.pending, 3⟩ wC false rfl rfl

end Select
